import Mathlib

/-!
Verification of the FLife `SpectralData` core (file `FLife/spectralData.py`).

The embedding below translates the band-splitting, moment-integration and
derived-statistic code of the `SpectralData` class into Lean definitions.

Modelling conventions:
* A two-column PSD array `psd` (frequency column `psd[:,0]`, magnitude
  column `psd[:,1]`) is a `PSDmat`: a row count `n` together with the two
  column functions.  Row indices beyond `n` are never read by the code.
* numpy float arithmetic is modelled exactly: the band splitters are
  polymorphic over a `LinearOrderedField` (instantiated at `ℚ` for
  computation and at `ℝ` for the moment engine); the moment engine uses `ℝ`
  because it involves `pi`, square roots and real powers.
* `np.argmin` returns the first index attaining the minimum; `argminRec`
  below reproduces that.
* Python dynamic typing and the dispatch/except logic of
  `_get_band_stop_frequency` are modelled with `PyArg`/`PyErr`/`Except`.
-/

namespace FLife

/-! ### numpy primitives used by the band splitter -/

/-- First index of the minimum of `g` over indices `0..m` (`np.argmin` on the
prefix of length `m+1`): later indices replace the current best only on a
strict improvement. -/
def argminRec {α : Type} [LinearOrderedField α] (g : ℕ → α) : ℕ → ℕ
  | 0 => 0
  | m+1 => if g (m+1) < g (argminRec g m) then m+1 else argminRec g m

/-- `np.argmin` over an array of length `n` (first minimal index). -/
def npArgmin {α : Type} [LinearOrderedField α] (g : ℕ → α) (n : ℕ) : ℕ :=
  argminRec g (n - 1)

/-- Entry `k` of `np.cumsum` of the magnitude column: sum of `p 0 .. p k`. -/
def cumsum {α : Type} [LinearOrderedField α] (p : ℕ → α) (k : ℕ) : α :=
  ∑ j in Finset.range (k+1), p j

/-- `np.sum` of the magnitude column (`q_area` in `_equalAreaBands`). -/
def totalSum {α : Type} [LinearOrderedField α] (p : ℕ → α) (n : ℕ) : α :=
  ∑ j in Finset.range n, p j

/-! ### band splitters (`_equalAreaBands`, `_userDefinedBands`) -/

/-- `_equalAreaBands` over magnitudes `p` of length `n` with argument `N`:
for `k = 0..N-1`, the first index minimising
`|c_psd - (k+1) * q_area/N|`, where `c_psd` is the cumulative sum of the
magnitude column and `q_area` its total (frequency spacing not used). -/
def equalAreaBands {α : Type} [LinearOrderedField α] (p : ℕ → α) (n N : ℕ) :
    List ℕ :=
  (List.range N).map fun k =>
    npArgmin (fun j => |cumsum p j - ((k+1 : ℕ) : α) * (totalSum p n / (N : α))|) n

/-- `_userDefinedBands` over frequencies `f` of length `n`: for each target
frequency, the first index minimising `|psd_freq - target|`. -/
def userDefinedBands {α : Type} [LinearOrderedField α] (f : ℕ → α) (n : ℕ)
    (freqs : List α) : List ℕ :=
  freqs.map fun t => npArgmin (fun j => |f j - t|) n

/-! ### basic properties of `argminRec` -/

theorem argminRec_le {α : Type} [LinearOrderedField α] (g : ℕ → α) (m : ℕ) :
    argminRec g m ≤ m := by
  induction m with
  | zero => simp [argminRec]
  | succ m ih =>
      simp only [argminRec]
      split
      · exact le_refl _
      · exact Nat.le_succ_of_le ih

theorem argminRec_min {α : Type} [LinearOrderedField α] (g : ℕ → α) (m : ℕ) :
    ∀ j, j ≤ m → g (argminRec g m) ≤ g j := by
  induction m with
  | zero =>
      intro j hj
      rw [Nat.le_zero] at hj
      subst hj
      simp [argminRec]
  | succ m ih =>
      intro j hj
      simp only [argminRec]
      split
      · rename_i h
        rcases Nat.lt_succ_iff_lt_or_eq.mp (Nat.lt_succ_of_le hj) with hj' | hj'
        · exact le_of_lt (lt_of_lt_of_le h (ih j (Nat.lt_succ_iff.mp hj')))
        · exact le_of_eq (congrArg g hj'.symm)
      · rename_i h
        rcases Nat.lt_succ_iff_lt_or_eq.mp (Nat.lt_succ_of_le hj) with hj' | hj'
        · exact ih j (Nat.lt_succ_iff.mp hj')
        · rw [hj']
          exact not_lt.mp h

theorem argminRec_first {α : Type} [LinearOrderedField α] (g : ℕ → α) (m : ℕ) :
    ∀ j, j < argminRec g m → g (argminRec g m) < g j := by
  induction m with
  | zero => simp [argminRec]
  | succ m ih =>
      intro j hj
      by_cases h : g (m+1) < g (argminRec g m)
      · rw [argminRec, if_pos h] at hj ⊢
        exact lt_of_lt_of_le h (argminRec_min g m j (Nat.lt_succ_iff.mp hj))
      · rw [argminRec, if_neg h] at hj ⊢
        exact ih j hj

theorem argminRec_eq_of_unique {α : Type} [LinearOrderedField α] (g : ℕ → α)
    (m i : ℕ) (him : i ≤ m) (h : ∀ j, j ≤ m → j ≠ i → g i < g j) :
    argminRec g m = i := by
  by_contra hne
  have h1 : g (argminRec g m) ≤ g i := argminRec_min g m i him
  have h2 : g i < g (argminRec g m) := h _ (argminRec_le g m) hne
  exact absurd (lt_of_lt_of_le h2 h1) (lt_irrefl _)

theorem sq_le_sq_of_abs_le {α : Type} [LinearOrderedField α] {a b : α}
    (h : |a| ≤ |b|) : a^2 ≤ b^2 := by
  rw [← sq_abs a, ← sq_abs b]
  exact pow_le_pow_left₀ (abs_nonneg a) h 2

theorem sq_lt_sq_of_abs_lt {α : Type} [LinearOrderedField α] {a b : α}
    (h : |a| < |b|) : a^2 < b^2 := by
  rw [← sq_abs a, ← sq_abs b]
  exact pow_lt_pow_left₀ h (abs_nonneg a) two_ne_zero

/-- The first `argmin` of `|c - t|` over a monotone sequence `c` is monotone
in the target `t`. -/
theorem argminRec_abs_mono {α : Type} [LinearOrderedField α] (c : ℕ → α)
    (m : ℕ) (hc : ∀ j1 j2, j1 ≤ j2 → j2 ≤ m → c j1 ≤ c j2) (t1 t2 : α)
    (ht : t1 ≤ t2) :
    argminRec (fun j => |c j - t1|) m ≤ argminRec (fun j => |c j - t2|) m := by
  set A1 := argminRec (fun j => |c j - t1|) m with hA1
  set A2 := argminRec (fun j => |c j - t2|) m with hA2
  by_contra hlt
  push_neg at hlt
  have hA1m : A1 ≤ m := argminRec_le _ m
  have hA2m : A2 ≤ m := argminRec_le _ m
  have hfirst : |c A1 - t1| < |c A2 - t1| :=
    argminRec_first (fun j => |c j - t1|) m A2 hlt
  have hmin : |c A2 - t2| ≤ |c A1 - t2| :=
    argminRec_min (fun j => |c j - t2|) m A1 hA1m
  have hba : c A2 ≤ c A1 := hc A2 A1 (le_of_lt hlt) hA1m
  have h1 : (c A1 - t1)^2 < (c A2 - t1)^2 := sq_lt_sq_of_abs_lt hfirst
  have h2 : (c A2 - t2)^2 ≤ (c A1 - t2)^2 := sq_le_sq_of_abs_le hmin
  nlinarith [mul_nonneg (sub_nonneg.mpr ht) (sub_nonneg.mpr hba)]

/-- Unpacking lemma for `(List.range n).map F` at an index below `n`. -/
theorem getD_range_map {β : Type} (F : ℕ → β) (k n : ℕ) (hk : k < n) (d : β) :
    ((List.range n).map F).getD k d = F k := by
  rw [List.getD_eq_getElem?_getD, List.getElem?_map, List.getElem?_range hk]
  rfl

/-- Unpacking lemma for `l.map F` at an index below `l.length`. -/
theorem getD_map {β γ : Type} (l : List β) (F : β → γ) (k : ℕ)
    (hk : k < l.length) (d : γ) (d' : β) :
    (l.map F).getD k d = F (l.getD k d') := by
  rw [List.getD_eq_getElem?_getD, List.getElem?_map,
    List.getD_eq_getElem?_getD, List.getElem?_eq_getElem hk]
  rfl

/-- Claim C1: for every stored PSD and every `N ≥ 1`, `_equalAreaBands`
computes the cumulative sum of the PSD magnitude column only (no frequency
spacing), and the `k`-th returned entry (for `k+1` in `1..N`) is the index
whose cumulative sum is closest by absolute difference to `(k+1)/N` of the
total magnitude sum, ties broken by the first minimal index. -/
theorem equalAreaBands_selects_closest_cumsum {α : Type}
    [LinearOrderedField α] (p : ℕ → α) (n N : ℕ) (hn : 1 ≤ n) (k : ℕ)
    (hk : k < N) :
    (equalAreaBands p n N).getD k 0 < n ∧
    (∀ j, j < n →
      |cumsum p ((equalAreaBands p n N).getD k 0) -
          ((k+1 : ℕ) : α) * (totalSum p n / (N : α))| ≤
        |cumsum p j - ((k+1 : ℕ) : α) * (totalSum p n / (N : α))|) ∧
    (∀ j, j < (equalAreaBands p n N).getD k 0 →
      |cumsum p ((equalAreaBands p n N).getD k 0) -
          ((k+1 : ℕ) : α) * (totalSum p n / (N : α))| <
        |cumsum p j - ((k+1 : ℕ) : α) * (totalSum p n / (N : α))|) := by
  have hentry : (equalAreaBands p n N).getD k 0 =
      npArgmin (fun j => |cumsum p j - ((k+1 : ℕ) : α) *
        (totalSum p n / (N : α))|) n :=
    getD_range_map _ k N hk 0
  rw [hentry]
  unfold npArgmin
  refine ⟨?_, ?_, ?_⟩
  · have := argminRec_le
      (fun j => |cumsum p j - ((k+1 : ℕ) : α) * (totalSum p n / (N : α))|) (n-1)
    omega
  · intro j hj
    exact argminRec_min
      (fun j => |cumsum p j - ((k+1 : ℕ) : α) * (totalSum p n / (N : α))|)
      (n-1) j (by omega)
  · intro j hj
    exact argminRec_first
      (fun j => |cumsum p j - ((k+1 : ℕ) : α) * (totalSum p n / (N : α))|)
      (n-1) j hj

theorem equalAreaBands_selects_closest_cumsum_witness :
    (1:ℕ) ≤ 3 ∧
    ((equalAreaBands (fun j => ([1, 2, 1] : List ℚ).getD j 0) 3 2).getD 0 0 < 3 ∧
    (∀ j, j < 3 →
      |cumsum (fun j => ([1, 2, 1] : List ℚ).getD j 0)
          ((equalAreaBands (fun j => ([1, 2, 1] : List ℚ).getD j 0) 3 2).getD 0 0) -
          ((0+1 : ℕ) : ℚ) * (totalSum (fun j => ([1, 2, 1] : List ℚ).getD j 0) 3 / ((2:ℕ) : ℚ))| ≤
        |cumsum (fun j => ([1, 2, 1] : List ℚ).getD j 0) j -
          ((0+1 : ℕ) : ℚ) * (totalSum (fun j => ([1, 2, 1] : List ℚ).getD j 0) 3 / ((2:ℕ) : ℚ))|) ∧
    (∀ j, j < (equalAreaBands (fun j => ([1, 2, 1] : List ℚ).getD j 0) 3 2).getD 0 0 →
      |cumsum (fun j => ([1, 2, 1] : List ℚ).getD j 0)
          ((equalAreaBands (fun j => ([1, 2, 1] : List ℚ).getD j 0) 3 2).getD 0 0) -
          ((0+1 : ℕ) : ℚ) * (totalSum (fun j => ([1, 2, 1] : List ℚ).getD j 0) 3 / ((2:ℕ) : ℚ))| <
        |cumsum (fun j => ([1, 2, 1] : List ℚ).getD j 0) j -
          ((0+1 : ℕ) : ℚ) * (totalSum (fun j => ([1, 2, 1] : List ℚ).getD j 0) 3 / ((2:ℕ) : ℚ))|)) :=
  ⟨by decide,
    equalAreaBands_selects_closest_cumsum
      (fun j => ([1, 2, 1] : List ℚ).getD j 0) 3 2 (by decide) 0 (by decide)⟩

/-- Entry `k` of `_equalAreaBands` unfolded. -/
theorem equalAreaBands_getD {α : Type} [LinearOrderedField α] (p : ℕ → α)
    (n N k : ℕ) (hk : k < N) :
    (equalAreaBands p n N).getD k 0 =
      npArgmin (fun j => |cumsum p j - ((k+1 : ℕ) : α) *
        (totalSum p n / (N : α))|) n :=
  getD_range_map _ k N hk 0

theorem cumsum_mono {α : Type} [LinearOrderedField α] (p : ℕ → α) (n : ℕ)
    (hn : 1 ≤ n) (hp : ∀ j, j < n → 0 ≤ p j) :
    ∀ j1 j2, j1 ≤ j2 → j2 ≤ n - 1 → cumsum p j1 ≤ cumsum p j2 := by
  intro j1 j2 h12 h2
  unfold cumsum
  refine Finset.sum_le_sum_of_subset_of_nonneg
    (Finset.range_subset.mpr (by omega)) ?_
  intro i hi _
  rw [Finset.mem_range] at hi
  exact hp i (by omega)

theorem cumsum_add_last_le {α : Type} [LinearOrderedField α] (p : ℕ → α)
    (n j : ℕ) (hj : j < n - 1) (hp : ∀ j, j < n → 0 ≤ p j) :
    cumsum p j + p (n-1) ≤ totalSum p n := by
  have hnot : (n-1) ∉ Finset.range (j+1) := by
    rw [Finset.mem_range]
    omega
  have heq : cumsum p j + p (n-1) =
      ∑ i in insert (n-1) (Finset.range (j+1)), p i := by
    rw [Finset.sum_insert hnot, add_comm]
    rfl
  rw [heq]
  refine Finset.sum_le_sum_of_subset_of_nonneg ?_ ?_
  · intro i hi
    rw [Finset.mem_insert, Finset.mem_range] at hi
    rw [Finset.mem_range]
    omega
  · intro i hi _
    rw [Finset.mem_range] at hi
    exact hp i hi

/-- With a positive last magnitude, the last target `N * q_area/N` is
attained only at the last valid index, so the final boundary is `n - 1`. -/
theorem equalAreaBands_getD_last {α : Type} [LinearOrderedField α]
    (p : ℕ → α) (n N : ℕ) (hN : 1 ≤ N) (hn : N ≤ n)
    (hp : ∀ j, j < n → 0 ≤ p j) (hlast : 0 < p (n-1)) :
    (equalAreaBands p n N).getD (N-1) 0 = n - 1 := by
  have hn1 : 1 ≤ n := le_trans hN hn
  rw [equalAreaBands_getD p n N (N-1) (by omega)]
  unfold npArgmin
  have htarget : (((N-1)+1 : ℕ) : α) * (totalSum p n / (N : α)) =
      totalSum p n := by
    have h1 : (N-1)+1 = N := by omega
    rw [h1, mul_comm, div_mul_cancel₀]
    exact Nat.cast_ne_zero.mpr (by omega)
  rw [htarget]
  have hcn : cumsum p (n-1) = totalSum p n := by
    unfold cumsum totalSum
    have h1 : (n-1)+1 = n := by omega
    rw [h1]
  refine argminRec_eq_of_unique _ (n-1) (n-1) (le_refl _) ?_
  intro j hj hne
  have hjlt : j < n - 1 := by omega
  have hcj : cumsum p j < totalSum p n := by
    have := cumsum_add_last_le p n j hjlt hp
    linarith
  rw [hcn, sub_self, abs_zero]
  rw [abs_pos]
  exact sub_ne_zero.mpr (ne_of_lt hcj)

/-- Claim C2 (amended): for every PSD of length `n ≥ N` with non-negative
magnitudes, `_equalAreaBands` returns exactly `N` indices, each a valid PSD
index, monotonically non-decreasing; when the last magnitude is positive the
final entry equals the last PSD index.  (Strict increase, and the final-index
property without the positivity proviso, fail: see the counterexample.) -/
theorem equalAreaBands_count_and_monotone {α : Type} [LinearOrderedField α]
    (p : ℕ → α) (n N : ℕ) (hN : 1 ≤ N) (hn : N ≤ n)
    (hp : ∀ j, j < n → 0 ≤ p j) :
    (equalAreaBands p n N).length = N ∧
    (∀ k, k < N → (equalAreaBands p n N).getD k 0 < n) ∧
    (∀ k1 k2, k1 ≤ k2 → k2 < N →
      (equalAreaBands p n N).getD k1 0 ≤ (equalAreaBands p n N).getD k2 0) ∧
    (0 < p (n-1) → (equalAreaBands p n N).getD (N-1) 0 = n - 1) := by
  have hn1 : 1 ≤ n := le_trans hN hn
  refine ⟨by simp [equalAreaBands], ?_, ?_, ?_⟩
  · intro k hk
    rw [equalAreaBands_getD p n N k hk]
    unfold npArgmin
    have := argminRec_le
      (fun j => |cumsum p j - ((k+1 : ℕ) : α) * (totalSum p n / (N : α))|) (n-1)
    omega
  · intro k1 k2 h12 hk2
    rw [equalAreaBands_getD p n N k1 (by omega), equalAreaBands_getD p n N k2 hk2]
    unfold npArgmin
    refine argminRec_abs_mono (cumsum p) (n-1) (cumsum_mono p n hn1 hp) _ _ ?_
    have hT : 0 ≤ totalSum p n / (N : α) := by
      refine div_nonneg (Finset.sum_nonneg ?_) (Nat.cast_nonneg N)
      intro i hi
      rw [Finset.mem_range] at hi
      exact hp i hi
    refine mul_le_mul_of_nonneg_right ?_ hT
    exact_mod_cast Nat.add_le_add_right h12 1
  · intro hlast
    exact equalAreaBands_getD_last p n N hN hn hp hlast

theorem equalAreaBands_count_and_monotone_witness :
    (1:ℕ) ≤ 2 ∧ 2 ≤ 3 ∧
    ((equalAreaBands (fun j => ([1, 2, 1] : List ℚ).getD j 0) 3 2).length = 2 ∧
    (∀ k, k < 2 →
      (equalAreaBands (fun j => ([1, 2, 1] : List ℚ).getD j 0) 3 2).getD k 0 < 3) ∧
    (∀ k1 k2, k1 ≤ k2 → k2 < 2 →
      (equalAreaBands (fun j => ([1, 2, 1] : List ℚ).getD j 0) 3 2).getD k1 0 ≤
        (equalAreaBands (fun j => ([1, 2, 1] : List ℚ).getD j 0) 3 2).getD k2 0) ∧
    (0 < (fun j => ([1, 2, 1] : List ℚ).getD j 0) (3-1) →
      (equalAreaBands (fun j => ([1, 2, 1] : List ℚ).getD j 0) 3 2).getD (2-1) 0 = 3 - 1)) :=
  ⟨by decide, by decide,
    equalAreaBands_count_and_monotone (fun j => ([1, 2, 1] : List ℚ).getD j 0)
      3 2 (by decide) (by decide) (by decide)⟩

/-- Counterexample to claim C2 as stated: for the valid PSD with (positive)
magnitudes `[10, 1, 1]`, `_equalAreaBands` with `N = 3` returns `(0, 0, 2)`,
which is not strictly increasing. -/
theorem equalAreaBands_not_strictly_increasing :
    equalAreaBands (fun j => ([10, 1, 1] : List ℚ).getD j 0) 3 3 = [0, 0, 2] ∧
    ¬ List.Chain' (· < ·)
      (equalAreaBands (fun j => ([10, 1, 1] : List ℚ).getD j 0) 3 3) := by
  have h : equalAreaBands (fun j => ([10, 1, 1] : List ℚ).getD j 0) 3 3 =
      [0, 0, 2] := by
    norm_num [equalAreaBands, npArgmin, argminRec, cumsum, totalSum,
      Finset.sum_range_succ, Finset.sum_range_zero, List.range_succ]
  refine ⟨h, ?_⟩
  rw [h]
  simp [List.chain'_cons]

/-- Claim C9: `_userDefinedBands` returns, for each target frequency in
order, the (first) PSD index whose frequency is closest by absolute
difference to the target; when the targets are PSD sample frequencies of a
strictly increasing frequency column, the returned indices are exactly the
indices of those frequencies. -/
theorem userDefinedBands_closest {α : Type} [LinearOrderedField α]
    (f : ℕ → α) (n : ℕ) (hn : 1 ≤ n) (freqs : List α) :
    ((userDefinedBands f n freqs).length = freqs.length ∧
     ∀ k, k < freqs.length →
      (userDefinedBands f n freqs).getD k 0 < n ∧
      (∀ j, j < n →
        |f ((userDefinedBands f n freqs).getD k 0) - freqs.getD k 0| ≤
          |f j - freqs.getD k 0|) ∧
      (∀ j, j < (userDefinedBands f n freqs).getD k 0 →
        |f ((userDefinedBands f n freqs).getD k 0) - freqs.getD k 0| <
          |f j - freqs.getD k 0|)) ∧
    ((∀ j1 j2, j1 < j2 → j2 < n → f j1 < f j2) →
      ∀ idxs : List ℕ, (∀ x ∈ idxs, x < n) →
        userDefinedBands f n (idxs.map f) = idxs) := by
  constructor
  · refine ⟨by simp [userDefinedBands], ?_⟩
    intro k hk
    have hentry : (userDefinedBands f n freqs).getD k 0 =
        npArgmin (fun j => |f j - freqs.getD k 0|) n := by
      unfold userDefinedBands
      exact getD_map freqs _ k hk 0 0
    rw [hentry]
    unfold npArgmin
    refine ⟨?_, ?_, ?_⟩
    · have := argminRec_le (fun j => |f j - freqs.getD k 0|) (n-1)
      omega
    · intro j hj
      exact argminRec_min (fun j => |f j - freqs.getD k 0|) (n-1) j (by omega)
    · intro j hj
      exact argminRec_first (fun j => |f j - freqs.getD k 0|) (n-1) j hj
  · intro hmono idxs hidx
    unfold userDefinedBands
    rw [List.map_map]
    have : ∀ x ∈ idxs,
        (fun t => npArgmin (fun j => |f j - t|) n) (f x) = id x := by
      intro x hx
      have hxn : x < n := hidx x hx
      unfold npArgmin
      refine argminRec_eq_of_unique _ (n-1) x (by omega) ?_
      intro j hj hne
      have hjn : j < n := by omega
      have hne' : f j ≠ f x := by
        rcases Nat.lt_or_ge j x with h | h
        · exact ne_of_lt (hmono j x h hxn)
        · exact ne_of_gt (hmono x j (by omega) hjn)
      rw [sub_self, abs_zero, abs_pos]
      exact sub_ne_zero.mpr hne'
    have h2 : List.map ((fun t => npArgmin (fun j => |f j - t|) n) ∘ f) idxs =
        List.map id idxs := List.map_congr_left this
    rw [h2, List.map_id]

theorem userDefinedBands_closest_witness :
    (1:ℕ) ≤ 3 ∧
    (((userDefinedBands (fun j : ℕ => (j : ℚ)) 3 [(1:ℚ)/2]).length = [(1:ℚ)/2].length ∧
     ∀ k, k < [(1:ℚ)/2].length →
      (userDefinedBands (fun j : ℕ => (j : ℚ)) 3 [(1:ℚ)/2]).getD k 0 < 3 ∧
      (∀ j, j < 3 →
        |(((userDefinedBands (fun j : ℕ => (j : ℚ)) 3 [(1:ℚ)/2]).getD k 0 : ℕ) : ℚ) -
            [(1:ℚ)/2].getD k 0| ≤ |((j:ℕ) : ℚ) - [(1:ℚ)/2].getD k 0|) ∧
      (∀ j, j < (userDefinedBands (fun j : ℕ => (j : ℚ)) 3 [(1:ℚ)/2]).getD k 0 →
        |(((userDefinedBands (fun j : ℕ => (j : ℚ)) 3 [(1:ℚ)/2]).getD k 0 : ℕ) : ℚ) -
            [(1:ℚ)/2].getD k 0| < |((j:ℕ) : ℚ) - [(1:ℚ)/2].getD k 0|)) ∧
    ((∀ j1 j2, j1 < j2 → j2 < 3 → ((j1:ℕ) : ℚ) < ((j2:ℕ) : ℚ)) →
      ∀ idxs : List ℕ, (∀ x ∈ idxs, x < 3) →
        userDefinedBands (fun j : ℕ => (j : ℚ)) 3 (idxs.map (fun j : ℕ => (j : ℚ))) = idxs)) :=
  ⟨by decide, userDefinedBands_closest (fun j : ℕ => (j : ℚ)) 3 (by decide) [(1:ℚ)/2]⟩

/-! ### dynamic typing and error model for `_get_band_stop_frequency` -/

/-- A Python exception as observed by a caller of the splitter. -/
inductive PyErr where
  | typeError (msg : String)
  | valueError (msg : String)
  | keyError
  | exception (msg : String)
deriving DecidableEq

/-- A Python value passed as `PSD_splitting[1]`: an `int`, a list/tuple of
values that are each numeric or not, or some other object. -/
inductive PyNum (α : Type) where
  | numeric (x : α)
  | nonNumeric
deriving DecidableEq

inductive PyArg (α : Type) where
  | argInt (N : ℤ)
  | argList (xs : List (PyNum α))
  | argOther
deriving DecidableEq

/-- The `isinstance` checks of `_userDefinedBands` over the elements of the
frequency list: the first non-numeric element raises `TypeError`. -/
def checkNumList {α : Type} : List (PyNum α) → Except PyErr (List α)
  | [] => .ok []
  | .numeric x :: r =>
      match checkNumList r with
      | .ok l => .ok (x :: l)
      | .error e => .error e
  | .nonNumeric :: _ =>
      .error (.typeError
        "Parameter PSD_splitting[1] elements must be of type int or float.")

/-- `_equalAreaBands` with its `isinstance(N, int)` check.  A non-positive
`int` passes the check; `range(N)` is then empty (`Int.toNat`). -/
def equalAreaBands_checked {α : Type} [LinearOrderedField α] (p : ℕ → α)
    (n : ℕ) (arg : PyArg α) : Except PyErr (List ℕ) :=
  match arg with
  | .argInt N => .ok (equalAreaBands p n N.toNat)
  | _ => .error (.typeError "Parameter PSD_splitting[1] must be of type int.")

/-- `_userDefinedBands` with its type checks. -/
def userDefinedBands_checked {α : Type} [LinearOrderedField α] (f : ℕ → α)
    (n : ℕ) (arg : PyArg α) : Except PyErr (List ℕ) :=
  match arg with
  | .argList xs =>
      match checkNumList xs with
      | .ok fs => .ok (userDefinedBands f n fs)
      | .error e => .error e
  | _ => .error (.typeError
      "Parameter PSD_splitting[1] must be of type list or tuple.")

/-- `_get_band_stop_frequency`: dictionary dispatch on the method tag wrapped
in `try ... except:` which re-raises every failure (unknown key or any
in-method type error alike) as the same generic
`ValueError("Unknown splitting method")`; a non-tuple `PSD_splitting`
(modelled as `none`) raises `TypeError` outside the `try`. -/
def get_band_stop_frequency {α : Type} [LinearOrderedField α] (f p : ℕ → α)
    (n : ℕ) (splitting : Option (String × PyArg α)) :
    Except PyErr (List ℕ) :=
  match splitting with
  | some (method, arg) =>
      match (if method = "equalAreaBands" then equalAreaBands_checked p n arg
             else if method = "userDefinedBands" then
               userDefinedBands_checked f n arg
             else .error .keyError) with
      | .ok v => .ok v
      | .error _ => .error (.valueError "Unknown splitting method")
  | none => .error (.typeError "Parameter PSD_splitting must be of type tuple.")

/-- Counterexample to claim C7 as stated: an invalid equal-area argument (a
list instead of an int) and an unrecognized method tag produce the *same*
error value, so the two failure kinds are not distinguishable by the
caller. -/
theorem splitting_errors_indistinguishable :
    get_band_stop_frequency (fun j => ((j:ℚ))) (fun _ => (1:ℚ)) 2
        (some ("equalAreaBands", PyArg.argList [])) =
      get_band_stop_frequency (fun j => ((j:ℚ))) (fun _ => (1:ℚ)) 2
        (some ("noSuchMethod", PyArg.argInt 1)) ∧
    get_band_stop_frequency (fun j => ((j:ℚ))) (fun _ => (1:ℚ)) 2
        (some ("equalAreaBands", PyArg.argList [])) =
      Except.error (PyErr.valueError "Unknown splitting method") := by
  constructor
  · rfl
  · rfl

/-- Claim C7 (amended): an unrecognized policy tag, a non-int equal-area
argument and a non-numeric user-defined target all raise the *same* generic
`ValueError("Unknown splitting method")` (the bare `except:` swallows the
original error), so the two failure kinds are not distinguishable; only a
non-tuple policy raises a distinct `TypeError`.  Moreover a non-positive
`int` equal-area argument raises no error at all. -/
theorem get_band_stop_frequency_error_kinds {α : Type} [LinearOrderedField α]
    (f p : ℕ → α) (n : ℕ) :
    (∀ method arg, method ≠ "equalAreaBands" → method ≠ "userDefinedBands" →
      get_band_stop_frequency f p n (some (method, arg)) =
        Except.error (PyErr.valueError "Unknown splitting method")) ∧
    (∀ arg, (∀ N : ℤ, arg ≠ PyArg.argInt N) →
      get_band_stop_frequency f p n (some ("equalAreaBands", arg)) =
        Except.error (PyErr.valueError "Unknown splitting method")) ∧
    (∀ xs : List (PyNum α), PyNum.nonNumeric ∈ xs →
      get_band_stop_frequency f p n (some ("userDefinedBands", PyArg.argList xs)) =
        Except.error (PyErr.valueError "Unknown splitting method")) ∧
    (∀ N : ℤ, get_band_stop_frequency f p n (some ("equalAreaBands", PyArg.argInt N)) =
        Except.ok (equalAreaBands p n N.toNat)) ∧
    (get_band_stop_frequency f p n none =
      Except.error (PyErr.typeError "Parameter PSD_splitting must be of type tuple.")) := by
  refine ⟨?_, ?_, ?_, ?_, rfl⟩
  · intro method arg h1 h2
    simp only [get_band_stop_frequency]
    rw [if_neg h1, if_neg h2]
  · intro arg hnotint
    cases arg with
    | argInt N => exact absurd rfl (hnotint N)
    | argList xs => rfl
    | argOther => rfl
  · intro xs hmem
    have herr : ∃ e, checkNumList (α := α) xs = .error e := by
      induction xs with
      | nil => cases hmem
      | cons hd tl ih =>
          cases hd with
          | numeric x =>
              have hmem2 : PyNum.nonNumeric ∈ tl := by
                rcases List.mem_cons.mp hmem with h | h
                · cases h
                · exact h
              rcases ih hmem2 with ⟨e, he⟩
              refine ⟨e, ?_⟩
              unfold checkNumList
              rw [he]
          | nonNumeric => exact ⟨_, rfl⟩
    rcases herr with ⟨e, he⟩
    have hstep : get_band_stop_frequency f p n
        (some ("userDefinedBands", PyArg.argList xs)) =
        (match userDefinedBands_checked f n (PyArg.argList xs) with
          | .ok v => Except.ok v
          | .error _ => Except.error (PyErr.valueError "Unknown splitting method")) :=
      rfl
    rw [hstep]
    simp only [userDefinedBands_checked]
    rw [he]
  · intro N
    rfl

theorem get_band_stop_frequency_error_kinds_witness :
    "wrongTag" ≠ "equalAreaBands" ∧ "wrongTag" ≠ "userDefinedBands" ∧
    get_band_stop_frequency (fun j : ℕ => (j : ℚ)) (fun _ => (1:ℚ)) 2
        (some ("wrongTag", PyArg.argOther)) =
      Except.error (PyErr.valueError "Unknown splitting method") :=
  ⟨by decide, by decide,
    (get_band_stop_frequency_error_kinds (fun j : ℕ => (j : ℚ))
        (fun _ => (1:ℚ)) 2).1
      "wrongTag" PyArg.argOther (by decide) (by decide)⟩

/-! ### the moment engine (`_get_spectral_moment`, `get_spectral_moments`) -/

/-- The stored two-column PSD array: `n` rows, frequency column `f`
(`psd[:,0]`) and magnitude column `p` (`psd[:,1]`). -/
structure PSDmat where
  n : ℕ
  f : ℕ → ℝ
  p : ℕ → ℝ

/-- `np.trapz(y, x)` over arrays of length `n`:
`sum((x[1:] - x[:-1]) * (y[1:] + y[:-1]) / 2)`. -/
noncomputable def np_trapz (y x : ℕ → ℝ) (n : ℕ) : ℝ :=
  ∑ j in Finset.range (n - 1), (x (j+1) - x j) * (y (j+1) + y j) / 2

/-- `_get_spectral_moment(psd, i)`:
`np.trapz((2*np.pi*f)**i * p, f)` (real power; `i` may be fractional). -/
noncomputable def get_spectral_moment (P : PSDmat) (i : ℝ) : ℝ :=
  np_trapz (fun j => (2 * Real.pi * P.f j) ^ i * P.p j) P.f P.n

/-- The numpy row slice `psd[a:b, :]` (clamped like Python slicing). -/
def slicePSD (P : PSDmat) (a b : ℕ) : PSDmat :=
  ⟨min b P.n - a, fun j => P.f (a + j), fun j => P.p (a + j)⟩

/-- The rows handed to `_get_spectral_moment` for band `k` by
`get_spectral_moments`: `psd[:bs[0]+1]` for the first band and
`psd[bs[k-1]:bs[k]+1]` for the later ones. -/
def bandSlice (P : PSDmat) (bs : List ℕ) (k : ℕ) : PSDmat :=
  if k = 0 then slicePSD P 0 (bs.getD 0 0 + 1)
  else slicePSD P (bs.getD (k-1) 0) (bs.getD k 0 + 1)

/-- `get_spectral_moments` given the band stop indexes `bs` (one inner list
of moments per band). -/
noncomputable def get_spectral_moments (P : PSDmat) (bs : List ℕ)
    (ms : List ℝ) : List (List ℝ) :=
  (List.range bs.length).map fun k =>
    ms.map fun i => get_spectral_moment (bandSlice P bs k) i

/-- `get_bandwidth_estimator`: per band,
`alpha_i = m_i / np.sqrt(m_0 * m_2i)` from `moments=[0, i, 2*i]`. -/
noncomputable def get_bandwidth_estimator (P : PSDmat) (bs : List ℕ)
    (i : ℝ) : List ℝ :=
  (get_spectral_moments P bs [0, i, 2*i]).map fun bm =>
    bm.getD 1 0 / Real.sqrt (bm.getD 0 0 * bm.getD 2 0)

/-- `get_nup`: per band, `1/(2*pi) * sqrt(m_2 / m_0)`. -/
noncomputable def get_nup (P : PSDmat) (bs : List ℕ) : List ℝ :=
  (get_spectral_moments P bs [0, 2]).map fun bm =>
    1 / (2 * Real.pi) * Real.sqrt (bm.getD 1 0 / bm.getD 0 0)

/-- `get_mp`: per band, `1/(2*pi) * sqrt(m_4 / m_2)`. -/
noncomputable def get_mp (P : PSDmat) (bs : List ℕ) : List ℝ :=
  (get_spectral_moments P bs [2, 4]).map fun bm =>
    1 / (2 * Real.pi) * Real.sqrt (bm.getD 1 0 / bm.getD 0 0)

/-- The default policy `('equalAreaBands', 1)` applied to the stored PSD. -/
noncomputable def default_splitting_bands (P : PSDmat) : List ℕ :=
  equalAreaBands P.p P.n 1

/-- `_calculate_coefficients`: the values cached at construction, computed
with the default policy `('equalAreaBands', 1)`: the ravelled moments
`m0..m4`, `nu`, `m_p`, `alpha075`, `alpha1`, `alpha2`. -/
noncomputable def calculate_coefficients (P : PSDmat) :
    List ℝ × ℝ × ℝ × ℝ × ℝ × ℝ :=
  ((get_spectral_moments P (default_splitting_bands P) [0, 1, 2, 3, 4]).flatten,
   (get_nup P (default_splitting_bands P)).getD 0 0,
   (get_mp P (default_splitting_bands P)).getD 0 0,
   (get_bandwidth_estimator P (default_splitting_bands P) 0.75).getD 0 0,
   (get_bandwidth_estimator P (default_splitting_bands P) 1).getD 0 0,
   (get_bandwidth_estimator P (default_splitting_bands P) 2).getD 0 0)

/-- The trapezoid-rule integral of `(2*pi*f)^i * S(f)` over the sample rows
`a..b` of the PSD, written as the sum over each sample interval of the
average of the endpoint integrand values times the interval width (the
specified form of the i-th spectral moment of a band). -/
noncomputable def trapezoidMomentSpec (P : PSDmat) (i : ℝ) (a b : ℕ) : ℝ :=
  ∑ j in Finset.Ico a b,
    (P.f (j+1) - P.f j) *
      ((2 * Real.pi * P.f (j+1)) ^ i * P.p (j+1) +
        (2 * Real.pi * P.f j) ^ i * P.p j) / 2

/-- Claim C3: for every band matrix and every real order `i` (integer,
fractional or zero), `_get_spectral_moment` equals the trapezoidal numerical
integral of `(2*pi*f)^i * S(f)` with respect to `f` over exactly the samples
of the band slice. -/
theorem get_spectral_moment_is_trapezoid (P : PSDmat) (i : ℝ) :
    get_spectral_moment P i = trapezoidMomentSpec P i 0 (P.n - 1) := by
  unfold get_spectral_moment np_trapz trapezoidMomentSpec
  rw [Finset.range_eq_Ico]

/-- The moment of the slice `psd[a:b+1]` is the trapezoid sum over the index
window `[a, b)` of the original rows. -/
theorem get_spectral_moment_slice (P : PSDmat) (i : ℝ) (a b : ℕ)
    (hab : a ≤ b) (hb : b < P.n) :
    get_spectral_moment (slicePSD P a (b+1)) i = trapezoidMomentSpec P i a b := by
  unfold get_spectral_moment np_trapz trapezoidMomentSpec slicePSD
  simp only
  have hrows : min (b+1) P.n - a - 1 = b - a := by omega
  rw [hrows, Finset.sum_Ico_eq_sum_range]
  refine Finset.sum_congr rfl ?_
  intro j _
  have h1 : a + (j + 1) = (a + j) + 1 := rfl
  rw [h1]

/-- Entry `k` of `get_spectral_moments` unfolded to the band slice. -/
theorem get_spectral_moments_getD (P : PSDmat) (bs : List ℕ) (ms : List ℝ)
    (k : ℕ) (hk : k < bs.length) :
    (get_spectral_moments P bs ms).getD k [] =
      ms.map fun i => get_spectral_moment (bandSlice P bs k) i := by
  unfold get_spectral_moments
  rw [getD_range_map _ k bs.length hk]

/-- Claim C4: in `get_spectral_moments`, band `0` is integrated over PSD rows
`0` through `boundary[0]` inclusive, and each band `k > 0` over rows
`boundary[k-1]` through `boundary[k]`, so adjacent bands share the boundary
row (the trapezoid windows `[0, b_0)` and `[b_(k-1), b_k)` both use their
right endpoint row, and row `b_(k-1)` is reused as the left endpoint of band
`k`). -/
theorem get_spectral_moments_band_rows (P : PSDmat) (bs : List ℕ)
    (ms : List ℝ)
    (hmono : ∀ k, k + 1 < bs.length → bs.getD k 0 ≤ bs.getD (k+1) 0)
    (hlt : ∀ k, k < bs.length → bs.getD k 0 < P.n)
    (k : ℕ) (hk : k < bs.length) :
    (get_spectral_moments P bs ms).getD k [] =
      ms.map fun i =>
        trapezoidMomentSpec P i (if k = 0 then 0 else bs.getD (k-1) 0)
          (bs.getD k 0) := by
  rw [get_spectral_moments_getD P bs ms k hk]
  refine List.map_congr_left ?_
  intro i _
  by_cases hk0 : k = 0
  · subst hk0
    rw [if_pos rfl]
    unfold bandSlice
    rw [if_pos rfl]
    exact get_spectral_moment_slice P i 0 (bs.getD 0 0) (Nat.zero_le _)
      (hlt 0 hk)
  · rw [if_neg hk0]
    unfold bandSlice
    rw [if_neg hk0]
    refine get_spectral_moment_slice P i (bs.getD (k-1) 0) (bs.getD k 0) ?_
      (hlt k hk)
    have := hmono (k-1) (by omega)
    have hkk : (k-1) + 1 = k := by omega
    rw [hkk] at this
    exact this

theorem get_spectral_moments_band_rows_witness :
    (∀ k, k + 1 < ([1, 2] : List ℕ).length →
      ([1, 2] : List ℕ).getD k 0 ≤ ([1, 2] : List ℕ).getD (k+1) 0) ∧
    (∀ k, k < ([1, 2] : List ℕ).length →
      ([1, 2] : List ℕ).getD k 0 < (PSDmat.mk 3 (fun j => (j:ℝ)) (fun _ => 1)).n) ∧
    ((get_spectral_moments (PSDmat.mk 3 (fun j => (j:ℝ)) (fun _ => 1))
        [1, 2] [0]).getD 1 [] =
      [0].map fun i =>
        trapezoidMomentSpec (PSDmat.mk 3 (fun j => (j:ℝ)) (fun _ => 1)) i
          (if (1:ℕ) = 0 then 0 else ([1, 2] : List ℕ).getD (1-1) 0)
          (([1, 2] : List ℕ).getD 1 0)) :=
  ⟨by
      intro k hk
      simp only [List.length_cons, List.length_nil] at hk
      rcases k with _ | k
      · decide
      · omega,
    by
      intro k hk
      simp only [List.length_cons, List.length_nil] at hk
      rcases k with _ | _ | k
      · decide
      · decide
      · omega,
    get_spectral_moments_band_rows (PSDmat.mk 3 (fun j => (j:ℝ)) (fun _ => 1))
      [1, 2] [0]
      (by
        intro k hk
        simp only [List.length_cons, List.length_nil] at hk
        rcases k with _ | k
        · decide
        · omega)
      (by
        intro k hk
        simp only [List.length_cons, List.length_nil] at hk
        rcases k with _ | _ | k
        · decide
        · decide
        · omega)
      1 (by decide)⟩

/-! ### the coefficient cache (`_calculate_coefficients`) -/

/-- With non-negative magnitudes and a positive last magnitude,
`_equalAreaBands(1)` selects exactly the last PSD index. -/
theorem equalAreaBands_one {α : Type} [LinearOrderedField α] (p : ℕ → α)
    (n : ℕ) (hn : 1 ≤ n) (hp : ∀ j, j < n → 0 ≤ p j) (hlast : 0 < p (n-1)) :
    equalAreaBands p n 1 = [n-1] := by
  have h0 : (equalAreaBands p n 1).getD 0 0 = n - 1 := by
    have := equalAreaBands_getD_last p n 1 (le_refl 1) hn hp hlast
    simpa using this
  have hlen : equalAreaBands p n 1 =
      [(equalAreaBands p n 1).getD 0 0] := by
    unfold equalAreaBands
    have hr : List.range 1 = [0] := by decide
    rw [hr]
    rfl
  rw [hlen, h0]

theorem slicePSD_zero_n (P : PSDmat) : slicePSD P 0 P.n = P := by
  cases P with
  | mk n f p =>
      unfold slicePSD
      simp only
      congr 1
      · simp
      · funext j
        simp
      · funext j
        simp

/-- Counterexample to claim C5 as stated: for the valid PSD with frequencies
`[0, 1]` and magnitudes `[1, 0]` (non-negative, at least two points,
strictly increasing frequencies), the cumulative sum plateaus early, so
`EqualAreaBands(1)` selects boundary index 0 and the cached `m0` is the
moment of the single-row band `psd[:1]`, namely `0` — while the whole PSD
treated as a single band has `m0 = trapz = 1/2`. -/
theorem cached_m0_ne_whole_psd_m0 :
    (calculate_coefficients
        ⟨2, fun j => (j:ℝ), fun j => if j = 0 then 1 else 0⟩).1.getD 0 0 = 0 ∧
    get_spectral_moment
        ⟨2, fun j => (j:ℝ), fun j => if j = 0 then 1 else 0⟩ 0 = 1/2 ∧
    (calculate_coefficients
        ⟨2, fun j => (j:ℝ), fun j => if j = 0 then 1 else 0⟩).1.getD 0 0 ≠
      get_spectral_moment
        ⟨2, fun j => (j:ℝ), fun j => if j = 0 then 1 else 0⟩ 0 := by
  have hbands : default_splitting_bands
      ⟨2, fun j => (j:ℝ), fun j => if j = 0 then 1 else 0⟩ = [0] := by
    norm_num [default_splitting_bands, equalAreaBands, npArgmin, argminRec,
      cumsum, totalSum, Finset.sum_range_succ, List.range_succ]
  have hm0 : get_spectral_moment
      ⟨2, fun j => (j:ℝ), fun j => if j = 0 then 1 else 0⟩ 0 = 1/2 := by
    norm_num [get_spectral_moment, np_trapz, Finset.sum_range_succ,
      Real.rpow_zero]
  refine ⟨?_, hm0, ?_⟩
  · unfold calculate_coefficients
    rw [hbands]
    norm_num [get_spectral_moments, get_spectral_moment, bandSlice, slicePSD,
      np_trapz, List.range_succ, List.getD]
  · unfold calculate_coefficients
    rw [hbands]
    norm_num [get_spectral_moments, get_spectral_moment, bandSlice, slicePSD,
      np_trapz, List.range_succ, List.getD, hm0]

/-- Claim C5 (amended): for every PSD with non-negative magnitudes whose
last magnitude is positive (so the cumulative magnitude sum reaches its
total only at the last row), the coefficients cached at construction —
moments `m0..m4`, `nu`, `m_p`, `alpha075`, `alpha1`, `alpha2` — equal the
corresponding queries evaluated on the entire PSD as a single band.  (With a
zero tail `EqualAreaBands(1)` truncates the band early and the cached values
differ from the whole-PSD ones: see the counterexample.) -/
theorem calculate_coefficients_whole_psd (P : PSDmat) (hn : 1 ≤ P.n)
    (hp : ∀ j, j < P.n → 0 ≤ P.p j) (hlast : 0 < P.p (P.n - 1)) :
    calculate_coefficients P =
      ([get_spectral_moment P 0, get_spectral_moment P 1,
        get_spectral_moment P 2, get_spectral_moment P 3,
        get_spectral_moment P 4],
       1 / (2 * Real.pi) *
         Real.sqrt (get_spectral_moment P 2 / get_spectral_moment P 0),
       1 / (2 * Real.pi) *
         Real.sqrt (get_spectral_moment P 4 / get_spectral_moment P 2),
       get_spectral_moment P 0.75 /
         Real.sqrt (get_spectral_moment P 0 * get_spectral_moment P 1.5),
       get_spectral_moment P 1 /
         Real.sqrt (get_spectral_moment P 0 * get_spectral_moment P 2),
       get_spectral_moment P 2 /
         Real.sqrt (get_spectral_moment P 0 * get_spectral_moment P 4)) := by
  have hbs : default_splitting_bands P = [P.n - 1] :=
    equalAreaBands_one P.p P.n hn hp hlast
  have hband : bandSlice P [P.n - 1] 0 = P := by
    unfold bandSlice
    rw [if_pos rfl]
    have h1 : ([P.n - 1] : List ℕ).getD 0 0 = P.n - 1 := rfl
    rw [h1]
    have h2 : P.n - 1 + 1 = P.n := by omega
    rw [h2]
    exact slicePSD_zero_n P
  have hms : ∀ ms : List ℝ, get_spectral_moments P [P.n - 1] ms =
      [ms.map fun i => get_spectral_moment P i] := by
    intro ms
    unfold get_spectral_moments
    have hlen : ([P.n - 1] : List ℕ).length = 1 := rfl
    rw [hlen]
    have hr : List.range 1 = [0] := by decide
    rw [hr, List.map_cons, List.map_nil, hband]
  unfold calculate_coefficients get_nup get_mp get_bandwidth_estimator
  rw [hbs, hms, hms, hms, hms, hms, hms]
  simp only [List.map_cons, List.map_nil, List.flatten, List.getD, List.append_nil]
  norm_num

theorem calculate_coefficients_whole_psd_witness :
    (1:ℕ) ≤ (PSDmat.mk 2 (fun j => (j:ℝ)) (fun _ => 1)).n ∧
    (∀ j, j < (PSDmat.mk 2 (fun j => (j:ℝ)) (fun _ => 1)).n →
      0 ≤ (PSDmat.mk 2 (fun j => (j:ℝ)) (fun _ => 1)).p j) ∧
    0 < (PSDmat.mk 2 (fun j => (j:ℝ)) (fun _ => 1)).p
        ((PSDmat.mk 2 (fun j => (j:ℝ)) (fun _ => 1)).n - 1) ∧
    calculate_coefficients (PSDmat.mk 2 (fun j => (j:ℝ)) (fun _ => 1)) =
      ([get_spectral_moment (PSDmat.mk 2 (fun j => (j:ℝ)) (fun _ => 1)) 0,
        get_spectral_moment (PSDmat.mk 2 (fun j => (j:ℝ)) (fun _ => 1)) 1,
        get_spectral_moment (PSDmat.mk 2 (fun j => (j:ℝ)) (fun _ => 1)) 2,
        get_spectral_moment (PSDmat.mk 2 (fun j => (j:ℝ)) (fun _ => 1)) 3,
        get_spectral_moment (PSDmat.mk 2 (fun j => (j:ℝ)) (fun _ => 1)) 4],
       1 / (2 * Real.pi) *
         Real.sqrt (get_spectral_moment (PSDmat.mk 2 (fun j => (j:ℝ)) (fun _ => 1)) 2 /
           get_spectral_moment (PSDmat.mk 2 (fun j => (j:ℝ)) (fun _ => 1)) 0),
       1 / (2 * Real.pi) *
         Real.sqrt (get_spectral_moment (PSDmat.mk 2 (fun j => (j:ℝ)) (fun _ => 1)) 4 /
           get_spectral_moment (PSDmat.mk 2 (fun j => (j:ℝ)) (fun _ => 1)) 2),
       get_spectral_moment (PSDmat.mk 2 (fun j => (j:ℝ)) (fun _ => 1)) 0.75 /
         Real.sqrt (get_spectral_moment (PSDmat.mk 2 (fun j => (j:ℝ)) (fun _ => 1)) 0 *
           get_spectral_moment (PSDmat.mk 2 (fun j => (j:ℝ)) (fun _ => 1)) 1.5),
       get_spectral_moment (PSDmat.mk 2 (fun j => (j:ℝ)) (fun _ => 1)) 1 /
         Real.sqrt (get_spectral_moment (PSDmat.mk 2 (fun j => (j:ℝ)) (fun _ => 1)) 0 *
           get_spectral_moment (PSDmat.mk 2 (fun j => (j:ℝ)) (fun _ => 1)) 2),
       get_spectral_moment (PSDmat.mk 2 (fun j => (j:ℝ)) (fun _ => 1)) 2 /
         Real.sqrt (get_spectral_moment (PSDmat.mk 2 (fun j => (j:ℝ)) (fun _ => 1)) 0 *
           get_spectral_moment (PSDmat.mk 2 (fun j => (j:ℝ)) (fun _ => 1)) 4)) :=
  ⟨by norm_num, by norm_num, by norm_num,
    calculate_coefficients_whole_psd (PSDmat.mk 2 (fun j => (j:ℝ)) (fun _ => 1))
      (by norm_num) (by norm_num) (by norm_num)⟩

/-! ### bandwidth estimator bounds (Cauchy-Schwarz for the trapezoid sums) -/

theorem rpow_sq_of_nonneg {x : ℝ} (hx : 0 ≤ x) (i : ℝ) :
    (x ^ i) ^ (2:ℕ) = x ^ (2*i) := by
  rw [← Real.rpow_natCast (x ^ i) 2, ← Real.rpow_mul hx]
  norm_num [mul_comm]

/-- `_get_spectral_moment` as a weighted sum over (interval, endpoint)
pairs: each trapezoid contributes half its width times the integrand at each
endpoint. -/
theorem get_spectral_moment_eq_pair_sum (P : PSDmat) (i : ℝ) :
    get_spectral_moment P i =
      ∑ t in (Finset.range (P.n - 1)) ×ˢ (Finset.range 2),
        ((P.f (t.1+1) - P.f t.1) / 2 * P.p (t.1+t.2)) *
          (2 * Real.pi * P.f (t.1+t.2)) ^ i := by
  rw [Finset.sum_product]
  unfold get_spectral_moment np_trapz
  refine Finset.sum_congr rfl ?_
  intro j _
  rw [Finset.sum_range_succ, Finset.sum_range_one]
  simp only [Nat.add_zero]
  ring

theorem get_spectral_moment_nonneg (P : PSDmat)
    (hf : ∀ j, j + 1 < P.n → P.f j ≤ P.f (j+1))
    (hf0 : ∀ j, j < P.n → 0 ≤ P.f j)
    (hp : ∀ j, j < P.n → 0 ≤ P.p j) (i : ℝ) :
    0 ≤ get_spectral_moment P i := by
  unfold get_spectral_moment np_trapz
  refine Finset.sum_nonneg ?_
  intro j hj
  rw [Finset.mem_range] at hj
  have hj1 : j + 1 < P.n := by omega
  have hjn : j < P.n := by omega
  have hd : 0 ≤ P.f (j+1) - P.f j := sub_nonneg.mpr (hf j hj1)
  have hX1 : 0 ≤ 2 * Real.pi * P.f (j+1) :=
    mul_nonneg (by positivity) (hf0 _ hj1)
  have hX0 : 0 ≤ 2 * Real.pi * P.f j :=
    mul_nonneg (by positivity) (hf0 _ hjn)
  have h1 : 0 ≤ (2 * Real.pi * P.f (j+1)) ^ i * P.p (j+1) :=
    mul_nonneg (Real.rpow_nonneg hX1 i) (hp _ hj1)
  have h0 : 0 ≤ (2 * Real.pi * P.f j) ^ i * P.p j :=
    mul_nonneg (Real.rpow_nonneg hX0 i) (hp _ hjn)
  have := mul_nonneg hd (by linarith :
    (0:ℝ) ≤ (2 * Real.pi * P.f (j+1)) ^ i * P.p (j+1) +
      (2 * Real.pi * P.f j) ^ i * P.p j)
  linarith

theorem get_spectral_moment_pos (P : PSDmat) (h2 : 2 ≤ P.n)
    (hf : ∀ j, j + 1 < P.n → P.f j < P.f (j+1))
    (hf0 : ∀ j, j < P.n → 0 ≤ P.f j)
    (hp : ∀ j, j < P.n → 0 < P.p j) (i : ℝ) :
    0 < get_spectral_moment P i := by
  unfold get_spectral_moment np_trapz
  refine Finset.sum_pos' ?_ ?_
  · intro j hj
    rw [Finset.mem_range] at hj
    have hj1 : j + 1 < P.n := by omega
    have hjn : j < P.n := by omega
    have hd : 0 ≤ P.f (j+1) - P.f j := sub_nonneg.mpr (le_of_lt (hf j hj1))
    have hX1 : 0 ≤ 2 * Real.pi * P.f (j+1) :=
      mul_nonneg (by positivity) (hf0 _ hj1)
    have hX0 : 0 ≤ 2 * Real.pi * P.f j :=
      mul_nonneg (by positivity) (hf0 _ hjn)
    have h1 : 0 ≤ (2 * Real.pi * P.f (j+1)) ^ i * P.p (j+1) :=
      mul_nonneg (Real.rpow_nonneg hX1 i) (le_of_lt (hp _ hj1))
    have h0 : 0 ≤ (2 * Real.pi * P.f j) ^ i * P.p j :=
      mul_nonneg (Real.rpow_nonneg hX0 i) (le_of_lt (hp _ hjn))
    have := mul_nonneg hd (by linarith :
      (0:ℝ) ≤ (2 * Real.pi * P.f (j+1)) ^ i * P.p (j+1) +
        (2 * Real.pi * P.f j) ^ i * P.p j)
    linarith
  · refine ⟨0, Finset.mem_range.mpr (by omega), ?_⟩
    have h01 : (0:ℕ) + 1 = 1 := rfl
    have hd : 0 < P.f 1 - P.f 0 := sub_pos.mpr (hf 0 (by omega))
    have hf1 : 0 < P.f 1 := lt_of_le_of_lt (hf0 0 (by omega)) (hf 0 (by omega))
    have hX1 : 0 < 2 * Real.pi * P.f 1 := by positivity
    have h1 : 0 < (2 * Real.pi * P.f 1) ^ i * P.p 1 :=
      mul_pos (Real.rpow_pos_of_pos hX1 i) (hp 1 (by omega))
    have hX0 : 0 ≤ 2 * Real.pi * P.f 0 :=
      mul_nonneg (by positivity) (hf0 0 (by omega))
    have h0 : 0 ≤ (2 * Real.pi * P.f 0) ^ i * P.p 0 :=
      mul_nonneg (Real.rpow_nonneg hX0 i) (le_of_lt (hp 0 (by omega)))
    have hsum : 0 < (2 * Real.pi * P.f (0+1)) ^ i * P.p (0+1) +
        (2 * Real.pi * P.f 0) ^ i * P.p 0 := by
      rw [h01]
      linarith
    have hd' : 0 < P.f (0+1) - P.f 0 := by
      rw [h01]
      exact hd
    have := mul_pos hd' hsum
    linarith

/-- Discrete Cauchy-Schwarz for the trapezoid moments:
`m_i^2 ≤ m_0 * m_2i` for a PSD slice with non-decreasing non-negative
frequencies and non-negative magnitudes. -/
theorem get_spectral_moment_sq_le (P : PSDmat)
    (hf : ∀ j, j + 1 < P.n → P.f j ≤ P.f (j+1))
    (hf0 : ∀ j, j < P.n → 0 ≤ P.f j)
    (hp : ∀ j, j < P.n → 0 ≤ P.p j) (i : ℝ) :
    (get_spectral_moment P i)^2 ≤
      get_spectral_moment P 0 * get_spectral_moment P (2*i) := by
  have hc : ∀ t ∈ (Finset.range (P.n - 1)) ×ˢ (Finset.range 2),
      0 ≤ (P.f (t.1+1) - P.f t.1) / 2 * P.p (t.1+t.2) := by
    intro t ht
    rw [Finset.mem_product, Finset.mem_range, Finset.mem_range] at ht
    have h1 : t.1 + 1 < P.n := by omega
    have h2 : t.1 + t.2 < P.n := by omega
    have hd : 0 ≤ P.f (t.1+1) - P.f t.1 := sub_nonneg.mpr (hf t.1 h1)
    have := hp _ h2
    have hhalf : 0 ≤ (P.f (t.1+1) - P.f t.1) / 2 := by linarith
    exact mul_nonneg hhalf this
  have hX : ∀ t ∈ (Finset.range (P.n - 1)) ×ˢ (Finset.range 2),
      0 ≤ 2 * Real.pi * P.f (t.1+t.2) := by
    intro t ht
    rw [Finset.mem_product, Finset.mem_range, Finset.mem_range] at ht
    have h2 : t.1 + t.2 < P.n := by omega
    exact mul_nonneg (by positivity) (hf0 _ h2)
  have key := Finset.sum_mul_sq_le_sq_mul_sq
    ((Finset.range (P.n - 1)) ×ˢ (Finset.range 2))
    (fun t => Real.sqrt ((P.f (t.1+1) - P.f t.1) / 2 * P.p (t.1+t.2)))
    (fun t => Real.sqrt ((P.f (t.1+1) - P.f t.1) / 2 * P.p (t.1+t.2)) *
      (2 * Real.pi * P.f (t.1+t.2)) ^ i)
  have hFG : ∑ t in (Finset.range (P.n - 1)) ×ˢ (Finset.range 2),
      Real.sqrt ((P.f (t.1+1) - P.f t.1) / 2 * P.p (t.1+t.2)) *
        (Real.sqrt ((P.f (t.1+1) - P.f t.1) / 2 * P.p (t.1+t.2)) *
          (2 * Real.pi * P.f (t.1+t.2)) ^ i) =
      get_spectral_moment P i := by
    rw [get_spectral_moment_eq_pair_sum P i]
    refine Finset.sum_congr rfl ?_
    intro t ht
    rw [← mul_assoc, Real.mul_self_sqrt (hc t ht)]
  have hF2 : ∑ t in (Finset.range (P.n - 1)) ×ˢ (Finset.range 2),
      (Real.sqrt ((P.f (t.1+1) - P.f t.1) / 2 * P.p (t.1+t.2)))^2 =
      get_spectral_moment P 0 := by
    rw [get_spectral_moment_eq_pair_sum P 0]
    refine Finset.sum_congr rfl ?_
    intro t ht
    rw [Real.sq_sqrt (hc t ht), Real.rpow_zero, mul_one]
  have hG2 : ∑ t in (Finset.range (P.n - 1)) ×ˢ (Finset.range 2),
      (Real.sqrt ((P.f (t.1+1) - P.f t.1) / 2 * P.p (t.1+t.2)) *
        (2 * Real.pi * P.f (t.1+t.2)) ^ i)^2 =
      get_spectral_moment P (2*i) := by
    rw [get_spectral_moment_eq_pair_sum P (2*i)]
    refine Finset.sum_congr rfl ?_
    intro t ht
    rw [mul_pow, Real.sq_sqrt (hc t ht), rpow_sq_of_nonneg (hX t ht) i]
  rw [hFG, hF2, hG2] at key
  exact key

/-- A slice `psd[a:b+1]` of a valid PSD (strictly increasing non-negative
frequencies, positive magnitudes) with `a < b < n` is again valid and has at
least two rows. -/
theorem slicePSD_valid (P : PSDmat) (a b : ℕ) (hab : a < b) (hb : b < P.n)
    (hf : ∀ j, j + 1 < P.n → P.f j < P.f (j+1))
    (hf0 : ∀ j, j < P.n → 0 ≤ P.f j)
    (hp : ∀ j, j < P.n → 0 < P.p j) :
    2 ≤ (slicePSD P a (b+1)).n ∧
    (∀ j, j + 1 < (slicePSD P a (b+1)).n →
      (slicePSD P a (b+1)).f j < (slicePSD P a (b+1)).f (j+1)) ∧
    (∀ j, j < (slicePSD P a (b+1)).n → 0 ≤ (slicePSD P a (b+1)).f j) ∧
    (∀ j, j < (slicePSD P a (b+1)).n → 0 < (slicePSD P a (b+1)).p j) := by
  have hn : (slicePSD P a (b+1)).n = b + 1 - a := by
    unfold slicePSD
    simp only
    omega
  refine ⟨by omega, ?_, ?_, ?_⟩
  · intro j hj
    rw [hn] at hj
    show P.f (a + j) < P.f (a + (j+1))
    have hstep : a + (j+1) = (a+j) + 1 := rfl
    rw [hstep]
    exact hf (a+j) (by omega)
  · intro j hj
    rw [hn] at hj
    show 0 ≤ P.f (a + j)
    exact hf0 (a+j) (by omega)
  · intro j hj
    rw [hn] at hj
    show 0 < P.p (a + j)
    exact hp (a+j) (by omega)

/-- Claim C6: for every PSD with strictly increasing non-negative
frequencies and positive (non-degenerate) magnitudes, every non-degenerate
band of a splitting (strictly increasing in-range stop indexes, first one at
least 1) and every real estimator index `i`, the bandwidth estimator
`alpha_i = m_i / sqrt(m_0 * m_2i)` computed by `get_bandwidth_estimator`
lies in `[0, 1]`; no clamping occurs in the definition. -/
theorem get_bandwidth_estimator_unit_interval (P : PSDmat) (bs : List ℕ)
    (i : ℝ)
    (hfP : ∀ j, j + 1 < P.n → P.f j < P.f (j+1))
    (hf0P : ∀ j, j < P.n → 0 ≤ P.f j)
    (hpP : ∀ j, j < P.n → 0 < P.p j)
    (hhead : 1 ≤ bs.getD 0 0)
    (hchain : ∀ k, k + 1 < bs.length → bs.getD k 0 < bs.getD (k+1) 0)
    (hlt : ∀ k, k < bs.length → bs.getD k 0 < P.n)
    (k : ℕ) (hk : k < bs.length) :
    0 ≤ (get_bandwidth_estimator P bs i).getD k 0 ∧
    (get_bandwidth_estimator P bs i).getD k 0 ≤ 1 := by
  have hlen : (get_spectral_moments P bs [0, i, 2*i]).length = bs.length := by
    unfold get_spectral_moments
    simp
  have hentry : (get_bandwidth_estimator P bs i).getD k 0 =
      (fun bm => bm.getD 1 0 / Real.sqrt (bm.getD 0 0 * bm.getD 2 0))
        ((get_spectral_moments P bs [0, i, 2*i]).getD k []) := by
    unfold get_bandwidth_estimator
    exact getD_map _ _ k (by rw [hlen]; exact hk) 0 []
  rw [hentry, get_spectral_moments_getD P bs _ k hk]
  simp only [List.map_cons, List.map_nil, List.getD_cons_zero,
    List.getD_cons_succ]
  have hQv : 2 ≤ (bandSlice P bs k).n ∧
      (∀ j, j + 1 < (bandSlice P bs k).n →
        (bandSlice P bs k).f j < (bandSlice P bs k).f (j+1)) ∧
      (∀ j, j < (bandSlice P bs k).n → 0 ≤ (bandSlice P bs k).f j) ∧
      (∀ j, j < (bandSlice P bs k).n → 0 < (bandSlice P bs k).p j) := by
    by_cases hk0 : k = 0
    · subst hk0
      unfold bandSlice
      rw [if_pos rfl]
      exact slicePSD_valid P 0 (bs.getD 0 0) (by omega) (hlt 0 hk) hfP hf0P hpP
    · unfold bandSlice
      rw [if_neg hk0]
      have hprev : bs.getD (k-1) 0 < bs.getD k 0 := by
        have := hchain (k-1) (by omega)
        have hkk : (k-1) + 1 = k := by omega
        rwa [hkk] at this
      exact slicePSD_valid P (bs.getD (k-1) 0) (bs.getD k 0) hprev
        (hlt k hk) hfP hf0P hpP
  obtain ⟨hQ2, hQf, hQf0, hQp⟩ := hQv
  have h0 : 0 < get_spectral_moment (bandSlice P bs k) 0 :=
    get_spectral_moment_pos _ hQ2 hQf hQf0 hQp 0
  have h2i : 0 < get_spectral_moment (bandSlice P bs k) (2*i) :=
    get_spectral_moment_pos _ hQ2 hQf hQf0 hQp (2*i)
  have hi0 : 0 ≤ get_spectral_moment (bandSlice P bs k) i :=
    le_of_lt (get_spectral_moment_pos _ hQ2 hQf hQf0 hQp i)
  have hcs := get_spectral_moment_sq_le (bandSlice P bs k)
    (fun j hj => le_of_lt (hQf j hj)) hQf0
    (fun j hj => le_of_lt (hQp j hj)) i
  have hD : 0 < Real.sqrt (get_spectral_moment (bandSlice P bs k) 0 *
      get_spectral_moment (bandSlice P bs k) (2*i)) :=
    Real.sqrt_pos.mpr (mul_pos h0 h2i)
  constructor
  · exact div_nonneg hi0 (le_of_lt hD)
  · rw [div_le_one hD]
    exact (Real.le_sqrt hi0 (le_of_lt (mul_pos h0 h2i))).mpr hcs

theorem get_bandwidth_estimator_unit_interval_witness :
    0 ≤ (get_bandwidth_estimator (PSDmat.mk 3 (fun j => (j:ℝ)) (fun _ => 1))
        [1, 2] 2).getD 0 0 ∧
    (get_bandwidth_estimator (PSDmat.mk 3 (fun j => (j:ℝ)) (fun _ => 1))
        [1, 2] 2).getD 0 0 ≤ 1 :=
  get_bandwidth_estimator_unit_interval
    (PSDmat.mk 3 (fun j => (j:ℝ)) (fun _ => 1)) [1, 2] 2
    (by
      intro j hj
      show ((j:ℕ):ℝ) < ((j+1:ℕ):ℝ)
      exact_mod_cast Nat.lt_succ_self j)
    (by
      intro j hj
      show (0:ℝ) ≤ ((j:ℕ):ℝ)
      positivity)
    (by
      intro j hj
      show (0:ℝ) < 1
      norm_num)
    (by decide)
    (by
      intro k hk
      simp only [List.length_cons, List.length_nil] at hk
      rcases k with _ | k
      · decide
      · omega)
    (by
      intro k hk
      simp only [List.length_cons, List.length_nil] at hk
      rcases k with _ | _ | k
      · decide
      · decide
      · omega)
    0 (by decide)

/-! ### `_calculate_psd` trimming and `__init__` attribute handling -/

/-- A numpy 2-D array shape: rows, columns, entries. -/
structure NPMat where
  rows : ℕ
  cols : ℕ
  entry : ℕ → ℕ → ℝ

/-- The numpy slice `A[:r, :c]` (clamped). -/
def matSlice (A : NPMat) (r c : ℕ) : NPMat :=
  ⟨min r A.rows, min c A.cols, A.entry⟩

/-- `_calculate_psd`: the welch-estimator output (two columns, injected here
as `welchRes` since `scipy.signal.welch` is an external collaborator), and
when a trim length is configured the slice
`psd[:trim_idx, :trim_idx]` with `trim_idx = int(np.floor(trim * df))`,
`df = fs / nperseg`. -/
noncomputable def calculate_psd (welchRes : NPMat) (fs nperseg : ℝ)
    (trim : Option ℝ) : NPMat :=
  match trim with
  | none => welchRes
  | some tr =>
      matSlice welchRes (⌊tr * (fs / nperseg)⌋).toNat
        (⌊tr * (fs / nperseg)⌋).toNat

/-- The truncation the spec (and the docstring of `psd_trim_length`)
describes: keep the first `N` frequency bins, all columns. -/
def psdFirstBins (A : NPMat) (N : ℕ) : NPMat :=
  ⟨min N A.rows, A.cols, A.entry⟩

/-- Claim C8 (code bug): with a time-history sampled at `fs = 1` (so
`dt = 1`), `nperseg = 1280` and `psd_trim_length = 100`, the code computes
`trim_idx = floor(100 * (1/1280)) = 0` and stores an empty PSD (also slicing
the column axis), whereas the docstring and spec require the first 100
frequency bins with both columns. -/
theorem calculate_psd_trim_bug :
    (calculate_psd (NPMat.mk 641 2 fun _ _ => 0) 1 1280 (some 100)).rows = 0 ∧
    (calculate_psd (NPMat.mk 641 2 fun _ _ => 0) 1 1280 (some 100)).cols = 0 ∧
    (psdFirstBins (NPMat.mk 641 2 fun _ _ => 0) 100).rows = 100 ∧
    (psdFirstBins (NPMat.mk 641 2 fun _ _ => 0) 100).cols = 2 ∧
    (calculate_psd (NPMat.mk 641 2 fun _ _ => 0) 1 1280 (some 100)).rows ≠
      (psdFirstBins (NPMat.mk 641 2 fun _ _ => 0) 100).rows := by
  have hfloor : ⌊(100:ℝ) * ((1:ℝ) / (1280:ℝ))⌋ = 0 := by
    rw [Int.floor_eq_zero_iff]
    constructor
    · norm_num
    · norm_num
  have hcode : calculate_psd (NPMat.mk 641 2 fun _ _ => 0) 1 1280 (some 100) =
      matSlice (NPMat.mk 641 2 fun _ _ => 0) 0 0 := by
    simp only [calculate_psd]
    rw [hfloor]
    rfl
  rw [hcode]
  refine ⟨by simp [matSlice], by simp [matSlice], by simp [psdFirstBins],
    rfl, ?_⟩
  simp [matSlice, psdFirstBins]

/-- The stored spectral-data attributes after `__init__`: the PSD array, the
optional time-domain attributes `data`, `dt`, `t` (absent means the Python
attribute was never set, so access raises `AttributeError`), and the cached
coefficients. -/
structure SDState where
  psd : NPMat
  data : Option (ℕ → ℝ)
  dt : Option ℝ
  t : Option ℝ
  moments : List ℝ
  nu : ℝ
  m_p : ℝ
  alpha075 : ℝ
  alpha1 : ℝ
  alpha2 : ℝ

/-- `np.column_stack((f, psd))`. -/
def column_stack (f p : ℕ → ℝ) (m : ℕ) : NPMat :=
  ⟨m, 2, fun j c => if c = 0 then f j else p j⟩

/-- Reading the two columns of the stored array back as a `PSDmat`. -/
def matToPSD (A : NPMat) : PSDmat :=
  ⟨A.rows, fun j => A.entry j 0, fun j => A.entry j 1⟩

/-- `_set_time_history`: `t = len(f)/f[-1]`, `N = (len(f)-1)*2`,
`dt = t/N`; the generated signal itself comes from the external
`pyExSi.random_gaussian` and is injected as `gen`. -/
noncomputable def set_time_history (gen : ℕ → ℝ) (f : ℕ → ℝ) (m : ℕ) :
    (ℕ → ℝ) × ℝ × ℝ :=
  ((gen), ((m : ℝ) / f (m - 1)) / (((m - 1) * 2 : ℕ) : ℝ),
    (m : ℝ) / f (m - 1))

/-- Building the state: store the PSD and the time attributes, then run
`_calculate_coefficients` on the stored PSD. -/
noncomputable def mkState (psdM : NPMat) (dataOpt : Option (ℕ → ℝ))
    (dtOpt tOpt : Option ℝ) : SDState :=
  ⟨psdM, dataOpt, dtOpt, tOpt,
    (calculate_coefficients (matToPSD psdM)).1,
    (calculate_coefficients (matToPSD psdM)).2.1,
    (calculate_coefficients (matToPSD psdM)).2.2.1,
    (calculate_coefficients (matToPSD psdM)).2.2.2.1,
    (calculate_coefficients (matToPSD psdM)).2.2.2.2.1,
    (calculate_coefficients (matToPSD psdM)).2.2.2.2.2⟩

/-- The `input` argument of `SpectralData.__init__` (the two tuple shapes
the claims concern, plus the failing shapes). -/
inductive InputV where
  | timeHist (data : ℕ → ℝ) (size : ℕ) (dt : ℝ)
  | psdPair (p : ℕ → ℝ) (f : ℕ → ℝ) (m : ℕ)
  | invalidTuple
  | notTuple

/-- `SpectralData.__init__` restricted to tuple inputs: a time-history
stores `data`, `dt`, `t` and the welch PSD; a `(PSD, freq)` pair stores the
column-stacked PSD and triggers `_set_time_history` only when an `rg`
keyword was supplied; other inputs raise.  The external welch estimate and
generated signal are injected as `welchRes` and `gen`. -/
noncomputable def SpectralData_init (gen : ℕ → ℝ) (welchRes : NPMat)
    (nperseg : ℝ) (psd_trim_length : Option ℝ) (input : InputV)
    (rgGiven : Bool) : Except PyErr SDState :=
  match input with
  | .timeHist d size dtv =>
      .ok (mkState (calculate_psd welchRes (1/dtv) nperseg psd_trim_length)
        (some d) (some dtv) (some (dtv * (size : ℝ))))
  | .psdPair p f m =>
      if rgGiven then
        .ok (mkState (column_stack f p m)
          (some (set_time_history gen f m).1)
          (some (set_time_history gen f m).2.1)
          (some (set_time_history gen f m).2.2))
      else
        .ok (mkState (column_stack f p m) none none none)
  | _ => .error (.exception "Unrecognized Input Error")

/-- Claim C10: constructing from a `(PSD, freq)` tuple without `rg` succeeds
and stores the PSD and the cached coefficients, but `data`, `dt` and `t` are
never set (modelled as `none`: any Python attribute access fails); they are
set exactly when the input is a time-history or an `rg` generator is
supplied. -/
theorem init_psd_tuple_time_attrs (gen : ℕ → ℝ) (welchRes : NPMat)
    (nperseg : ℝ) (trim : Option ℝ) (p f : ℕ → ℝ) (m : ℕ)
    (d : ℕ → ℝ) (size : ℕ) (dtv : ℝ) :
    (∃ st, SpectralData_init gen welchRes nperseg trim
        (InputV.psdPair p f m) false = .ok st ∧
      st.data = none ∧ st.dt = none ∧ st.t = none ∧
      st.psd = column_stack f p m ∧
      st.moments = (calculate_coefficients (matToPSD (column_stack f p m))).1 ∧
      st.nu = (calculate_coefficients (matToPSD (column_stack f p m))).2.1 ∧
      st.alpha2 =
        (calculate_coefficients (matToPSD (column_stack f p m))).2.2.2.2.2) ∧
    (∃ st, SpectralData_init gen welchRes nperseg trim
        (InputV.psdPair p f m) true = .ok st ∧
      st.data.isSome ∧ st.dt.isSome ∧ st.t.isSome) ∧
    (∃ st, SpectralData_init gen welchRes nperseg trim
        (InputV.timeHist d size dtv) false = .ok st ∧
      st.data.isSome ∧ st.dt.isSome ∧ st.t.isSome) :=
  ⟨⟨_, rfl, rfl, rfl, rfl, rfl, rfl, rfl, rfl⟩,
   ⟨_, rfl, rfl, rfl, rfl⟩,
   ⟨_, rfl, rfl, rfl, rfl⟩⟩

end FLife
